import Mathlib

set_option autoImplicit false
set_option linter.unusedVariables false

/-
A shallow embedding of the django-context-aware-orm repository
(src/context_manager.py and src/context_aware_model.py).

Modelling decisions:
- Python primary-key values are modelled by the inductive `PKVal`
  (integers, uuid.UUID values and strings); a nullable pk attribute is an
  `Option PKVal`.  Python truthiness of a pk (line 137 of
  context_manager.py uses `entity.pk` as a boolean) is `pkTruthy`.
- Python object identity is modelled by carrying the whole `Entity` value
  in the registry; the `oid` field is an object-identity token so that two
  distinct instances denoting the same row can be told apart.
- `ContextManager.pkRegistry` (a Python dict keyed by
  `(type name, entity.pk)`) becomes an insertion-ordered association list;
  new keys are appended, exactly like the only write in `regd`.
- The django `transaction` module state (managed flag, transaction
  management depth) and the persistence-layer call trace are bundled into
  the same `ContextManager` record, with every persistence call recorded
  as a `PEvent` in `events`.  The `spCommitRaises` / `spRollbackRaises`
  flags are a fault model for `transaction.savepoint_commit` /
  `transaction.savepoint_rollback` raising a database error.
- `hasQueuedSaves`, `fireQueuedSaves` and `abortAllQueuedSaves` are called
  by `pushSavepoint` / `commitSavepoint` / `rollbackSavepoint` but are not
  defined anywhere under src/; they are modelled from the spec (the
  Deferred-Write Coordinator section), see their doc comments.
-/

/-- A Python value usable as a primary key: an int, a uuid.UUID (tagged by
a natural number) or a string. -/
inductive PKVal where
  | intPK (n : Int)
  | uuidPK (u : Nat)
  | strPK (s : String)
deriving DecidableEq

/-- Python truthiness of a pk value: `0` and `""` are falsy, every
uuid.UUID instance is truthy. -/
def PKVal.truthy : PKVal → Bool
  | .intPK n => n != 0
  | .uuidPK _ => true
  | .strPK s => s != ""

/-- `isinstance(v, uuid.UUID)` from context_aware_model.py line 81. -/
def PKVal.isUUID : PKVal → Bool
  | .uuidPK _ => true
  | _ => false

/-- Truthiness of a nullable pk attribute (`entity.pk` used as a boolean:
None, 0 and the empty string are falsy). -/
def pkTruthy : Option PKVal → Bool
  | none => false
  | some v => v.truthy

/-- A model instance.  `oid` is the object-identity token, `className` is
`entity.__class__.__name__`, `pk` is the nullable primary key,
`canBeRegd` is `some b` when the object has a callable `canBeRegd` method
returning `b` and `none` when it has no such attribute, and `attrs` is the
attribute dictionary consulted by `getattr(obj, field.name + "_id", None)`
in the reverse one-to-one scan. -/
structure Entity where
  oid : Nat
  className : String
  pk : Option PKVal
  canBeRegd : Option Bool
  attrs : List (String × PKVal)
deriving DecidableEq

/-- `getattr(obj, name, None)` over the modelled attribute dictionary. -/
def attrLookup : List (String × PKVal) → String → Option PKVal
  | [], _ => none
  | (k, v) :: rest, name => if k = name then some v else attrLookup rest name

/-- A registry key `(entity.__class__.__name__, entity.pk)`
(context_manager.py line 144). -/
abbrev RegKey := String × Option PKVal

/-- The key under which `regd` files an entity. -/
def regKey (e : Entity) : RegKey := (e.className, e.pk)

/-- Dict lookup `self.pkRegistry.get(regkey, None)` over the association
list model of the registry. -/
def registryGet : List (RegKey × Entity) → RegKey → Option Entity
  | [], _ => none
  | (k, e) :: rest, key => if k = key then some e else registryGet rest key

/-- Dict deletion `del self.pkRegistry[key]`. -/
def registryErase (reg : List (RegKey × Entity)) (key : RegKey) :
    List (RegKey × Entity) :=
  reg.filter (fun p => decide (p.1 ≠ key))

/-- A call into the persistence layer (django ORM / transaction module),
recorded in order of occurrence. -/
inductive PEvent where
  | savepointCreate (h : Nat)
  | savepointCommit (h : Nat)
  | savepointRollback (h : Nat)
  | execWrite (w : Nat)
  | txEnter
  | txCommit
  | txRollback
  | txLeave
deriving DecidableEq

/-- Python exceptions relevant to the embedded code: the ValueError raised
on a stack-discipline violation, a database error raised by a savepoint
primitive, and the exception raised by the body of a `with` block. -/
inductive Exc where
  | stackDiscipline
  | dbError
  | blockExc
deriving DecidableEq

/-- The state of one `ContextManager` instance together with the state of
the django `transaction` module (managed flag, management depth, fault
flags for the savepoint primitives) and the trace of persistence-layer
calls. -/
structure ContextManager where
  pkRegistry : List (RegKey × Entity)
  savepoints : List Nat
  queuedSaves : List Nat
  nextHandle : Nat
  events : List PEvent
  txDepth : Nat
  txManaged : Bool
  spCommitRaises : Bool
  spRollbackRaises : Bool
deriving DecidableEq

/-- A freshly constructed context with an empty registry, an empty
savepoint stack and no active transaction management. -/
def initialCM : ContextManager :=
  ⟨[], [], [], 0, [], 0, false, false, false⟩

/-- Lines 134-137 of context_manager.py: use the per-entity `canBeRegd`
hook when the object has one, otherwise fall back to
`(entity is not None) and entity.pk`. -/
def isRegisterable : Option Entity → Bool
  | none => false
  | some e =>
    match e.canBeRegd with
    | some b => b
    | none => pkTruthy e.pk

/-- `ContextManager.regd` (context_manager.py lines 127-157): the identity
map registration.  Returns the updated state and the canonical instance. -/
def regd (s : ContextManager) (entity : Option Entity) :
    ContextManager × Option Entity :=
  match entity, isRegisterable entity with
  | some e, true =>
    match registryGet s.pkRegistry (regKey e) with
    | some cached => (s, some cached)
    | none =>
      ({ s with pkRegistry := s.pkRegistry ++ [(regKey e, e)] }, some e)
  | _, _ => (s, entity)

/-- `ContextManager.allRegd` (lines 160-166) and equally the `iterator` of
`RegisteringQuerySet` (context_aware_model.py lines 124-129) when a
context is present: register each fetched entity in order and yield the
canonical instances. -/
def allRegd (s : ContextManager) : List Entity → ContextManager × List (Option Entity)
  | [] => (s, [])
  | e :: rest =>
    let p := regd s (some e)
    let q := allRegd p.1 rest
    (q.1, p.2 :: q.2)

/-- `ContextManager.regdLookup` (lines 184-206): raw registry lookup with
an optional fall-through fetch function. -/
def regdLookup (s : ContextManager) (entityType : String) (pk : Option PKVal)
    (fetchFunc : Option (Unit → Option Entity)) :
    ContextManager × Option Entity :=
  match registryGet s.pkRegistry (entityType, pk) with
  | some cached => (s, some cached)
  | none =>
    match fetchFunc with
    | some f =>
      match f () with
      | some ret => regd s (some ret)
      | none => (s, none)
    | none => (s, none)

/-- `ContextManager.registeredEntities` (lines 209-216): all registered
`(pk, entity)` pairs of a given type name. -/
def registeredEntities (s : ContextManager) (entityType : String) :
    List (Option PKVal × Entity) :=
  (s.pkRegistry.filter (fun p => decide (p.1.1 = entityType))).map
    (fun p => (p.1.2, p.2))

/-- `ContextManager.flushRegistry` (lines 219-224). -/
def flushRegistry (s : ContextManager) : ContextManager :=
  { s with pkRegistry := [] }

/-- `ContextManager.ejectFromRegistry` (lines 227-238): delete the entry
keyed by `(obj.__class__.__name__, obj.pk)` when present. -/
def ejectFromRegistry (s : ContextManager) (obj : Entity) : ContextManager :=
  let key := regKey obj
  if (registryGet s.pkRegistry key).isSome then
    { s with pkRegistry := registryErase s.pkRegistry key }
  else s

/-- `onPreDeleteSignal` (lines 330-337): resolve the current context
softly and evict the instance being deleted. -/
def onPreDeleteSignal (ctx : Option ContextManager) (obj : Entity) :
    Option ContextManager :=
  match ctx with
  | some c => some (ejectFromRegistry c obj)
  | none => none

/-- Modelled from the spec: `ContextManager.hasQueuedSaves` is called by
the savepoint operations (lines 247, 262, 278) but is not defined under
src/.  Per the Deferred-Write Coordinator section it reports whether any
deferred write is queued against this context. -/
def hasQueuedSaves (s : ContextManager) : Bool :=
  !s.queuedSaves.isEmpty

/-- Modelled from the spec: `ContextManager.fireQueuedSaves` is called by
`pushSavepoint` and `commitSavepoint` but is not defined under src/.  Per
the spec it executes every queued write (recorded here as an `execWrite`
persistence event, in queue order) and empties the queue. -/
def fireQueuedSaves (s : ContextManager) : ContextManager :=
  { s with queuedSaves := [],
           events := s.events ++ s.queuedSaves.map PEvent.execWrite }

/-- Modelled from the spec: `ContextManager.abortAllQueuedSaves` is called
by `rollbackSavepoint` but is not defined under src/.  Per the spec it
discards every queued write without executing any of them. -/
def abortAllQueuedSaves (s : ContextManager) : ContextManager :=
  { s with queuedSaves := [] }

/-- The two-line Python pattern
`if self.hasQueuedSaves(): self.fireQueuedSaves()` shared by
`pushSavepoint` and `commitSavepoint`. -/
def fireIfQueued (s : ContextManager) : ContextManager :=
  if hasQueuedSaves s then fireQueuedSaves s else s

/-- The pattern `if self.hasQueuedSaves(): self.abortAllQueuedSaves()`
from `rollbackSavepoint`. -/
def abortIfQueued (s : ContextManager) : ContextManager :=
  if hasQueuedSaves s then abortAllQueuedSaves s else s

/-- django `transaction.savepoint()`: hand out a fresh opaque handle and
record the persistence call. -/
def txSavepoint (s : ContextManager) : ContextManager × Nat :=
  let h := s.nextHandle
  ({ s with nextHandle := h + 1,
            events := s.events ++ [PEvent.savepointCreate h] }, h)

/-- django `transaction.savepoint_commit(h)`: raises a database error when
the fault flag is set, otherwise records the commit. -/
def txSavepointCommit (s : ContextManager) (h : Nat) :
    ContextManager × Option Exc :=
  if s.spCommitRaises then (s, some Exc.dbError)
  else ({ s with events := s.events ++ [PEvent.savepointCommit h] }, none)

/-- django `transaction.savepoint_rollback(h)`: raises a database error
when the fault flag is set, otherwise records the rollback. -/
def txSavepointRollback (s : ContextManager) (h : Nat) :
    ContextManager × Option Exc :=
  if s.spRollbackRaises then (s, some Exc.dbError)
  else ({ s with events := s.events ++ [PEvent.savepointRollback h] }, none)

/-- django `transaction.is_managed()`. -/
def txIsManaged (s : ContextManager) : Bool :=
  s.txManaged

/-- django `transaction.enter_transaction_management()`. -/
def txEnterManagement (s : ContextManager) : ContextManager :=
  { s with txDepth := s.txDepth + 1, events := s.events ++ [PEvent.txEnter] }

/-- django `transaction.managed(True)`. -/
def txSetManaged (s : ContextManager) : ContextManager :=
  { s with txManaged := true }

/-- django `transaction.commit()` of the outer transaction. -/
def txCommit (s : ContextManager) : ContextManager :=
  { s with events := s.events ++ [PEvent.txCommit] }

/-- django `transaction.rollback()` of the outer transaction. -/
def txRollback (s : ContextManager) : ContextManager :=
  { s with events := s.events ++ [PEvent.txRollback] }

/-- django `transaction.leave_transaction_management()`: drop one level of
management and restore the unmanaged state when none is left. -/
def txLeaveManagement (s : ContextManager) : ContextManager :=
  { s with txDepth := s.txDepth - 1,
           txManaged := if s.txDepth - 1 = 0 then false else s.txManaged,
           events := s.events ++ [PEvent.txLeave] }

/-- `ContextManager.pushSavepoint` (lines 241-253): fire any queued saves,
ask the persistence layer for a new savepoint, push its handle. -/
def pushSavepoint (s : ContextManager) : ContextManager × Nat :=
  let s₁ := fireIfQueued s
  let p := txSavepoint s₁
  ({ p.1 with savepoints := p.1.savepoints ++ [p.2] }, p.2)

/-- `ContextManager.commitSavepoint` (lines 256-269): fire queued saves,
then commit and pop only when the handle is the top of the stack,
otherwise raise the stack-discipline ValueError. -/
def commitSavepoint (s : ContextManager) (savepoint : Nat) :
    ContextManager × Option Exc :=
  let s₁ := fireIfQueued s
  match s₁.savepoints.getLast? with
  | some top =>
    if savepoint = top then
      match txSavepointCommit s₁ savepoint with
      | (s₂, none) => ({ s₂ with savepoints := s₂.savepoints.dropLast }, none)
      | (s₂, some e) => (s₂, some e)
    else (s₁, some Exc.stackDiscipline)
  | none => (s₁, some Exc.stackDiscipline)

/-- `ContextManager.rollbackSavepoint` (lines 272-285): drop queued saves,
then roll back and pop only when the handle is the top of the stack,
otherwise raise the stack-discipline ValueError. -/
def rollbackSavepoint (s : ContextManager) (savepoint : Nat) :
    ContextManager × Option Exc :=
  let s₁ := abortIfQueued s
  match s₁.savepoints.getLast? with
  | some top =>
    if savepoint = top then
      match txSavepointRollback s₁ savepoint with
      | (s₂, none) => ({ s₂ with savepoints := s₂.savepoints.dropLast }, none)
      | (s₂, some e) => (s₂, some e)
    else (s₁, some Exc.stackDiscipline)
  | none => (s₁, some Exc.stackDiscipline)

/-- The state of the `SavepointContext` Python context manager returned by
`ContextManager.savepoint` (lines 288-323). -/
structure SavepointContext where
  savepoint : Option Nat
  managingTransaction : Bool

/-- `SavepointContext.__init__` (lines 297-300): remember whether this
scope has to start the outer transaction. -/
def savepointContextInit (s : ContextManager) : SavepointContext :=
  { savepoint := none, managingTransaction := !(txIsManaged s) }

/-- `SavepointContext.__enter__` (lines 302-306). -/
def savepointContextEnter (s : ContextManager) (c : SavepointContext) :
    ContextManager × SavepointContext :=
  let s₁ := if c.managingTransaction then txSetManaged (txEnterManagement s) else s
  let p := pushSavepoint s₁
  (p.1, { c with savepoint := some p.2 })

/-- `SavepointContext.__exit__` (lines 308-320), with the Python
try/finally semantics made explicit: an exception raised inside the try
block skips the rest of the try block, the finally clause always runs, and
the exception then propagates.  `excRaised` says whether the guarded block
exited with an exception; the returned `Option Exc` is the exception
raised by the exit code itself (if any). -/
def savepointContextExit (s : ContextManager) (c : SavepointContext)
    (excRaised : Bool) : ContextManager × Option Exc :=
  let tryRes :=
    match excRaised with
    | false =>
      match commitSavepoint s (c.savepoint.getD 0) with
      | (s₂, none) =>
        ((if c.managingTransaction then txCommit s₂ else s₂), (none : Option Exc))
      | (s₂, some e) => (s₂, some e)
    | true =>
      match rollbackSavepoint s (c.savepoint.getD 0) with
      | (s₂, none) =>
        ((if c.managingTransaction then txRollback s₂ else s₂), (none : Option Exc))
      | (s₂, some e) => (s₂, some e)
  let s₃ := if c.managingTransaction then txLeaveManagement tryRes.1 else tryRes.1
  (s₃, tryRes.2)

/-- One full execution of `with mgr.savepoint(): <body>`: construct the
context manager, enter, run the body (a state transformer), exit.
`raised` says whether the body raised; the resulting `Option Exc` is the
exception propagating out of the whole `with` statement (the body's own
exception unless the exit code raised one of its own). -/
def scopedSavepointRun (s : ContextManager) (body : ContextManager → ContextManager)
    (raised : Bool) : ContextManager × Option Exc :=
  match savepointContextExit
      (body (savepointContextEnter s (savepointContextInit s)).1)
      (savepointContextEnter s (savepointContextInit s)).2 raised with
  | (s₃, some e) => (s₃, some e)
  | (s₃, none) => (s₃, if raised then some Exc.blockExc else none)

/-- The structural data `ContextAwareManager.contribute_to_class`
(context_aware_model.py lines 27-55) computes once per concrete model
class: the model name, the set of primary-key-addressing attribute names
(`pkAttNames`) and the reverse one-to-one lookup patterns
(`oneToOneAttNames`, mapping a lookup key to the field name). -/
structure ManagerMeta where
  modelName : String
  pkAttNames : List String
  oneToOneAttNames : List (String × String)

/-- Line 77-78 of context_aware_model.py: strip a trailing `__exact` from
the lookup key when present. -/
def stripExact (k : String) : String :=
  if k.takeRight 7 = "__exact" then k.dropRight 7 else k

/-- Association lookup in `oneToOneAttNames`. -/
def strLookup : List (String × String) → String → Option String
  | [], _ => none
  | (k, v) :: rest, name => if k = name then some v else strLookup rest name

/-- Which of the three code paths a call to `ContextAwareManager.get`
takes: the identity-map lookup short-circuit (`registryLookup`), an
in-memory reverse one-to-one hit (`oneToOneHit`), or the plain query path
`super().get(*args, **kw)` (`realQuery`). -/
inductive GetPath where
  | registryLookup (pk : PKVal)
  | oneToOneHit (e : Entity)
  | realQuery
deriving DecidableEq

/-- The in-memory scan of lines 93-96: the first registered candidate
whose `field.name + "_id"` attribute equals the looked-up value. -/
def findOneToOne (cands : List (Option PKVal × Entity)) (fieldName : String)
    (v : PKVal) : Option Entity :=
  match cands with
  | [] => none
  | (_, obj) :: rest =>
    if attrLookup obj.attrs (fieldName ++ "_id") = some v then some obj
    else findOneToOne rest fieldName v

/-- The dispatch logic of `ContextAwareManager.get` (lines 65-98).
`args` are the positional arguments (for example Q objects) and `kw` the
keyword criteria; the code inspects only `kw`. -/
def managerGetPath (mgr : ManagerMeta) (context : Option ContextManager)
    (args : List Unit) (kw : List (String × PKVal)) : GetPath :=
  match context, kw with
  | some ctx, [(k0, v)] =>
    let k := stripExact k0
    let isPK := v.isUUID && mgr.pkAttNames.contains k
    if isPK then GetPath.registryLookup v
    else
      match strLookup mgr.oneToOneAttNames k with
      | some fieldName =>
        match findOneToOne (registeredEntities ctx mgr.modelName) fieldName v with
        | some obj => GetPath.oneToOneHit obj
        | none => GetPath.realQuery
      | none => GetPath.realQuery
  | _, _ => GetPath.realQuery

/-- `ContextAwareManager.get` in full: dispatch per `managerGetPath`, then
either delegate to `regdLookup` with the fall-through fetch function
`superGet` (the closure over `super().get(*args, **kw)`), return the
in-memory hit, or run the real query. -/
def managerGet (mgr : ManagerMeta) (context : Option ContextManager)
    (args : List Unit) (kw : List (String × PKVal))
    (superGet : Unit → Option Entity) :
    Option ContextManager × Option Entity :=
  match context with
  | some ctx =>
    match managerGetPath mgr (some ctx) args kw with
    | GetPath.registryLookup v =>
      let p := regdLookup ctx mgr.modelName (some v) (some superGet)
      (some p.1, p.2)
    | GetPath.oneToOneHit obj => (some ctx, some obj)
    | GetPath.realQuery => (some ctx, superGet ())
  | none => (none, superGet ())

/-- One row handed back by the modelled persistence fetch: it carries the
queried type name and pk, has no `canBeRegd` hook, and is tagged with the
fetch counter `v` as its object identity (each fetch builds fresh
instances). -/
def fetchRow (v : Nat) (typeName : String) (pk : Option PKVal) : Entity :=
  { oid := v, className := typeName, pk := pk, canBeRegd := none, attrs := [] }

/-- Modelled from the spec: `self.fetchEntities(parentClass, pk__in = pks)`
(context_manager.py line 180) is called by `registerParentEntities` but is
not defined under src/.  Per the spec it fetches all rows of the given
type whose primary key is in the given pk list.  `db t pk` says whether
such a row exists; `v` tags the call so that each call hands back fresh
instance objects (a fresh `oid`), as a real database fetch does. -/
def fetchEntities (db : String → Option PKVal → Bool) (v : Nat)
    (typeName : String) (pks : List (Option PKVal)) : List Entity :=
  pks.dedup.filterMap (fun pk =>
    if db typeName pk then some (fetchRow v typeName pk) else none)

/-- The inner loop of `registerParentEntities`: register every fetched
duplicate, keeping only the state. -/
def regdAll (s : ContextManager) (es : List Entity) : ContextManager :=
  es.foldl (fun st e => (regd st (some e)).1) s

/-- `ContextManager.registerParentEntities` (lines 169-181): for every
class in the parent chain, fetch the parent rows whose pk is among the pks
of `entities` and register each one.  The parent chain
(`entityType.objects.parentEntityClasses`, computed by
`contribute_to_class`, base first) is passed in as `parentEntityClasses`;
`modelClass` resolution is elided. -/
def registerParentEntities (db : String → Option PKVal → Bool) (v : Nat)
    (parentEntityClasses : List String) (s : ContextManager)
    (entities : List Entity) : ContextManager :=
  let pks := entities.map (fun e => e.pk)
  parentEntityClasses.foldl (fun st pc => regdAll st (fetchEntities db v pc pks)) s

/-- One operation of a fetch path that can resolve an instance within a
context: direct registration (`ContextManager.regd`), instance
construction intercepted by `ContextAwareModelBase.__call__`
(context_aware_model.py lines 160-186, which funnels the newborn through
`regd`), query-iterator registration (`RegisteringQuerySet.iterator`), and
a raw registry lookup.  Eviction and registry flushes are deliberately not
fetch-path operations. -/
inductive FetchOp where
  | register (e : Option Entity)
  | construct (e : Entity)
  | iterate (results : List Entity)
  | lookup (t : String) (pk : Option PKVal) (fetchFunc : Option (Unit → Option Entity))

/-- Run one fetch-path operation, collecting the instances it hands back. -/
def fetchStep (s : ContextManager) : FetchOp → ContextManager × List (Option Entity)
  | .register e => let p := regd s e; (p.1, [p.2])
  | .construct e => let p := regd s (some e); (p.1, [p.2])
  | .iterate results => allRegd s results
  | .lookup t pk f => let p := regdLookup s t pk f; (p.1, [p.2])

/-- Run a sequence of fetch-path operations. -/
def runFetchOps (s : ContextManager) : List FetchOp → ContextManager × List (Option Entity)
  | [] => (s, [])
  | op :: rest =>
    let p := fetchStep s op
    let q := runFetchOps p.1 rest
    (q.1, p.2 ++ q.2)

/-- A default entity for positional access into entity lists. -/
def defaultEntity : Entity :=
  ⟨0, "", none, none, []⟩

/- ------------------------------------------------------------------ -/
/- Helper lemmas about the registry and the registration operations.  -/
/- ------------------------------------------------------------------ -/

theorem registryGet_append_some (l₁ l₂ : List (RegKey × Entity)) (k : RegKey)
    (x : Entity) (h : registryGet l₁ k = some x) :
    registryGet (l₁ ++ l₂) k = some x := by
  induction l₁ with
  | nil => simp [registryGet] at h
  | cons p rest ih =>
    obtain ⟨pk, pe⟩ := p
    simp only [registryGet, List.cons_append] at h ⊢
    by_cases hk : pk = k
    · simpa [hk] using h
    · simp only [hk, if_false] at h ⊢
      exact ih h

theorem registryGet_append_none (l₁ l₂ : List (RegKey × Entity)) (k : RegKey)
    (h : registryGet l₁ k = none) :
    registryGet (l₁ ++ l₂) k = registryGet l₂ k := by
  induction l₁ with
  | nil => simp
  | cons p rest ih =>
    obtain ⟨pk, pe⟩ := p
    simp only [registryGet, List.cons_append] at h ⊢
    by_cases hk : pk = k
    · simp [hk] at h
    · simp only [hk, if_false] at h ⊢
      exact ih h

theorem registryGet_eq_none_iff (l : List (RegKey × Entity)) (k : RegKey) :
    registryGet l k = none ↔ k ∉ l.map Prod.fst := by
  induction l with
  | nil => simp [registryGet]
  | cons p rest ih =>
    obtain ⟨pk, pe⟩ := p
    by_cases hk : pk = k
    · simp [registryGet, hk]
    · simp [registryGet, hk, ih, Ne.symm hk]

theorem registryGet_erase_self (l : List (RegKey × Entity)) (k : RegKey) :
    registryGet (registryErase l k) k = none := by
  induction l with
  | nil => simp [registryErase, registryGet]
  | cons p rest ih =>
    obtain ⟨pk, pe⟩ := p
    by_cases hk : pk = k
    · simpa [registryErase, List.filter, hk] using ih
    · simpa [registryErase, List.filter, hk, registryGet] using ih

theorem registryGet_erase_other (l : List (RegKey × Entity)) (k k' : RegKey)
    (h : k' ≠ k) : registryGet (registryErase l k) k' = registryGet l k' := by
  induction l with
  | nil => simp [registryErase, registryGet]
  | cons p rest ih =>
    obtain ⟨pk, pe⟩ := p
    by_cases hk : pk = k
    · subst hk
      have hne : pk ≠ k' := fun hc => h hc.symm
      simpa [registryErase, List.filter_cons, registryGet, hne] using ih
    · by_cases hp : pk = k'
      · simp [registryErase, List.filter_cons, hk, registryGet, hp, h]
      · simpa [registryErase, List.filter_cons, hk, registryGet, hp] using ih

theorem regd_not_registerable (s : ContextManager) (e : Option Entity)
    (h : isRegisterable e = false) : regd s e = (s, e) := by
  cases e with
  | none => rfl
  | some e' => simp [regd, h]

theorem regd_cached (s : ContextManager) (e c : Entity)
    (hr : isRegisterable (some e) = true)
    (hc : registryGet s.pkRegistry (regKey e) = some c) :
    regd s (some e) = (s, some c) := by
  simp [regd, hr, hc]

theorem regd_fresh (s : ContextManager) (e : Entity)
    (hr : isRegisterable (some e) = true)
    (hc : registryGet s.pkRegistry (regKey e) = none) :
    regd s (some e) =
      ({ s with pkRegistry := s.pkRegistry ++ [(regKey e, e)] }, some e) := by
  simp [regd, hr, hc]

theorem regd_preserves_get (s : ContextManager) (e : Option Entity)
    (K : RegKey) (x : Entity) (h : registryGet s.pkRegistry K = some x) :
    registryGet (regd s e).1.pkRegistry K = some x := by
  cases e with
  | none => simpa [regd_not_registerable s none rfl]
  | some e' =>
    by_cases hr : isRegisterable (some e') = true
    · cases hc : registryGet s.pkRegistry (regKey e') with
      | some c => simpa [regd_cached s e' c hr hc]
      | none =>
        rw [regd_fresh s e' hr hc]
        exact registryGet_append_some _ _ _ _ h
    · rw [regd_not_registerable s (some e') (by simpa using hr)]
      exact h

theorem regd_sets (s : ContextManager) (e : Entity)
    (hr : isRegisterable (some e) = true) :
    (registryGet (regd s (some e)).1.pkRegistry (regKey e)).isSome := by
  cases hc : registryGet s.pkRegistry (regKey e) with
  | some c => simp [regd_cached s e c hr hc, hc]
  | none =>
    rw [regd_fresh s e hr hc]
    simp [registryGet_append_none _ _ _ hc, registryGet]

theorem regd_noop (s : ContextManager) (e : Entity)
    (h : isRegisterable (some e) = true →
      (registryGet s.pkRegistry (regKey e)).isSome) :
    (regd s (some e)).1 = s := by
  by_cases hr : isRegisterable (some e) = true
  · cases hc : registryGet s.pkRegistry (regKey e) with
    | some c => simp [regd_cached s e c hr hc]
    | none => exact absurd (h hr) (by simp [hc])
  · simp [regd_not_registerable s (some e) (by simpa using hr)]

theorem regd_preserves_nodup (s : ContextManager) (e : Option Entity)
    (h : (s.pkRegistry.map Prod.fst).Nodup) :
    ((regd s e).1.pkRegistry.map Prod.fst).Nodup := by
  cases e with
  | none => simpa [regd_not_registerable s none rfl]
  | some e' =>
    by_cases hr : isRegisterable (some e') = true
    · cases hc : registryGet s.pkRegistry (regKey e') with
      | some c => simpa [regd_cached s e' c hr hc]
      | none =>
        rw [regd_fresh s e' hr hc]
        have hnotin : regKey e' ∉ s.pkRegistry.map Prod.fst :=
          (registryGet_eq_none_iff _ _).1 hc
        simp [List.nodup_append, h, hnotin]
    · simpa [regd_not_registerable s (some e') (by simpa using hr)]

theorem regd_preserves_other_fields (s : ContextManager) (e : Option Entity) :
    (regd s e).1.savepoints = s.savepoints ∧
    (regd s e).1.queuedSaves = s.queuedSaves ∧
    (regd s e).1.events = s.events := by
  cases e with
  | none => simp [regd_not_registerable s none rfl]
  | some e' =>
    by_cases hr : isRegisterable (some e') = true
    · cases hc : registryGet s.pkRegistry (regKey e') with
      | some c => simp [regd_cached s e' c hr hc]
      | none => simp [regd_fresh s e' hr hc]
    · simp [regd_not_registerable s (some e') (by simpa using hr)]

theorem regdLookup_preserves_get (s : ContextManager) (t : String)
    (pk : Option PKVal) (f : Option (Unit → Option Entity)) (K : RegKey)
    (x : Entity) (h : registryGet s.pkRegistry K = some x) :
    registryGet (regdLookup s t pk f).1.pkRegistry K = some x := by
  cases hg : registryGet s.pkRegistry (t, pk) with
  | some c => simpa [regdLookup, hg]
  | none =>
    cases f with
    | none => simpa [regdLookup, hg]
    | some fn =>
      cases hr : fn () with
      | none => simpa [regdLookup, hg, hr]
      | some r =>
        simp only [regdLookup, hg, hr]
        exact regd_preserves_get s (some r) K x h

theorem regdLookup_preserves_nodup (s : ContextManager) (t : String)
    (pk : Option PKVal) (f : Option (Unit → Option Entity))
    (h : (s.pkRegistry.map Prod.fst).Nodup) :
    ((regdLookup s t pk f).1.pkRegistry.map Prod.fst).Nodup := by
  cases hg : registryGet s.pkRegistry (t, pk) with
  | some c => simpa [regdLookup, hg]
  | none =>
    cases f with
    | none => simpa [regdLookup, hg]
    | some fn =>
      cases hr : fn () with
      | none => simpa [regdLookup, hg, hr]
      | some r =>
        simp only [regdLookup, hg, hr]
        exact regd_preserves_nodup s (some r) h

theorem allRegd_cons (s : ContextManager) (e : Entity) (rest : List Entity) :
    allRegd s (e :: rest) =
      ((allRegd (regd s (some e)).1 rest).1,
       (regd s (some e)).2 :: (allRegd (regd s (some e)).1 rest).2) := rfl

theorem allRegd_preserves_get (s : ContextManager) (es : List Entity)
    (K : RegKey) (x : Entity) (h : registryGet s.pkRegistry K = some x) :
    registryGet (allRegd s es).1.pkRegistry K = some x := by
  induction es generalizing s with
  | nil => simpa [allRegd]
  | cons e rest ih =>
    rw [allRegd_cons]
    exact ih _ (regd_preserves_get s (some e) K x h)

theorem allRegd_preserves_nodup (s : ContextManager) (es : List Entity)
    (h : (s.pkRegistry.map Prod.fst).Nodup) :
    ((allRegd s es).1.pkRegistry.map Prod.fst).Nodup := by
  induction es generalizing s with
  | nil => simpa [allRegd]
  | cons e rest ih =>
    rw [allRegd_cons]
    exact ih _ (regd_preserves_nodup s (some e) h)

theorem allRegd_output (s : ContextManager) (es : List Entity) (K : RegKey)
    (x : Entity) (h : registryGet s.pkRegistry K = some x) :
    ∀ i : Nat, i < es.length →
      isRegisterable (some (es.getD i defaultEntity)) = true →
      regKey (es.getD i defaultEntity) = K →
      (allRegd s es).2.getD i none = some x := by
  induction es generalizing s with
  | nil => intro i hi; simp at hi
  | cons e rest ih =>
    intro i hi hreg hkey
    cases i with
    | zero =>
      simp only [List.getD_cons_zero] at hreg hkey
      have hget : registryGet s.pkRegistry (regKey e) = some x := by
        rw [hkey]; exact h
      rw [allRegd_cons, regd_cached s e x hreg hget]
      simp
    | succ n =>
      simp only [List.getD_cons_succ] at hreg hkey
      rw [allRegd_cons]
      simp only [List.getD_cons_succ]
      exact ih (regd s (some e)).1 (regd_preserves_get s (some e) K x h) n
        (by simpa using hi) hreg hkey

theorem fetchStep_preserves_get (s : ContextManager) (op : FetchOp)
    (K : RegKey) (x : Entity) (h : registryGet s.pkRegistry K = some x) :
    registryGet (fetchStep s op).1.pkRegistry K = some x := by
  cases op with
  | register e => simpa [fetchStep] using regd_preserves_get s e K x h
  | construct e => simpa [fetchStep] using regd_preserves_get s (some e) K x h
  | iterate rs => simpa [fetchStep] using allRegd_preserves_get s rs K x h
  | lookup t pk f => simpa [fetchStep] using regdLookup_preserves_get s t pk f K x h

theorem fetchStep_preserves_nodup (s : ContextManager) (op : FetchOp)
    (h : (s.pkRegistry.map Prod.fst).Nodup) :
    ((fetchStep s op).1.pkRegistry.map Prod.fst).Nodup := by
  cases op with
  | register e => simpa [fetchStep] using regd_preserves_nodup s e h
  | construct e => simpa [fetchStep] using regd_preserves_nodup s (some e) h
  | iterate rs => simpa [fetchStep] using allRegd_preserves_nodup s rs h
  | lookup t pk f => simpa [fetchStep] using regdLookup_preserves_nodup s t pk f h

theorem runFetchOps_preserves_get (s : ContextManager) (ops : List FetchOp)
    (K : RegKey) (x : Entity) (h : registryGet s.pkRegistry K = some x) :
    registryGet (runFetchOps s ops).1.pkRegistry K = some x := by
  induction ops generalizing s with
  | nil => simpa [runFetchOps]
  | cons op rest ih =>
    simp only [runFetchOps]
    exact ih _ (fetchStep_preserves_get s op K x h)

theorem runFetchOps_preserves_nodup (s : ContextManager) (ops : List FetchOp)
    (h : (s.pkRegistry.map Prod.fst).Nodup) :
    ((runFetchOps s ops).1.pkRegistry.map Prod.fst).Nodup := by
  induction ops generalizing s with
  | nil => simpa [runFetchOps]
  | cons op rest ih =>
    simp only [runFetchOps]
    exact ih _ (fetchStep_preserves_nodup s op h)

theorem regd_preserves_isSome (s : ContextManager) (e : Option Entity)
    (K : RegKey) (h : (registryGet s.pkRegistry K).isSome = true) :
    (registryGet (regd s e).1.pkRegistry K).isSome = true := by
  rw [Option.isSome_iff_exists] at h ⊢
  obtain ⟨x, hx⟩ := h
  exact ⟨x, regd_preserves_get s e K x hx⟩

theorem regdAll_nil (s : ContextManager) : regdAll s [] = s := rfl

theorem regdAll_cons (s : ContextManager) (e : Entity) (rest : List Entity) :
    regdAll s (e :: rest) = regdAll (regd s (some e)).1 rest := rfl

theorem regdAll_preserves_get (s : ContextManager) (es : List Entity)
    (K : RegKey) (x : Entity) (h : registryGet s.pkRegistry K = some x) :
    registryGet (regdAll s es).pkRegistry K = some x := by
  induction es generalizing s with
  | nil => simpa [regdAll_nil]
  | cons e rest ih =>
    rw [regdAll_cons]
    exact ih _ (regd_preserves_get s (some e) K x h)

theorem regdAll_preserves_isSome (s : ContextManager) (es : List Entity)
    (K : RegKey) (h : (registryGet s.pkRegistry K).isSome = true) :
    (registryGet (regdAll s es).pkRegistry K).isSome = true := by
  rw [Option.isSome_iff_exists] at h ⊢
  obtain ⟨x, hx⟩ := h
  exact ⟨x, regdAll_preserves_get s es K x hx⟩

theorem regdAll_preserves_nodup (s : ContextManager) (es : List Entity)
    (h : (s.pkRegistry.map Prod.fst).Nodup) :
    ((regdAll s es).pkRegistry.map Prod.fst).Nodup := by
  induction es generalizing s with
  | nil => simpa [regdAll_nil]
  | cons e rest ih =>
    rw [regdAll_cons]
    exact ih _ (regd_preserves_nodup s (some e) h)

theorem regdAll_covers (s : ContextManager) (es : List Entity) (r : Entity)
    (hmem : r ∈ es) (hreg : isRegisterable (some r) = true) :
    (registryGet (regdAll s es).pkRegistry (regKey r)).isSome = true := by
  induction es generalizing s with
  | nil => simp at hmem
  | cons e rest ih =>
    rw [regdAll_cons]
    rcases List.mem_cons.1 hmem with rfl | hmem'
    · exact regdAll_preserves_isSome _ rest (regKey r) (regd_sets s r hreg)
    · exact ih _ hmem'

theorem regdAll_noop (s : ContextManager) (es : List Entity)
    (h : ∀ e ∈ es, isRegisterable (some e) = true →
      (registryGet s.pkRegistry (regKey e)).isSome = true) :
    regdAll s es = s := by
  induction es with
  | nil => rfl
  | cons e rest ih =>
    rw [regdAll_cons, regd_noop s e (h e (List.mem_cons_self e rest))]
    exact ih (fun e' he' => h e' (List.mem_cons_of_mem e he'))

theorem mem_fetchEntities (db : String → Option PKVal → Bool) (v : Nat)
    (t : String) (pks : List (Option PKVal)) (r : Entity) :
    r ∈ fetchEntities db v t pks ↔
      ∃ pk, pk ∈ pks ∧ db t pk = true ∧ r = fetchRow v t pk := by
  simp only [fetchEntities, List.mem_filterMap, List.mem_dedup]
  constructor
  · rintro ⟨pk, hpk, hif⟩
    by_cases hdb : db t pk = true
    · simp only [hdb, if_true, Option.some_inj] at hif
      exact ⟨pk, hpk, hdb, hif.symm⟩
    · simp [hdb] at hif
  · rintro ⟨pk, hpk, hdb, rfl⟩
    exact ⟨pk, hpk, by simp [hdb]⟩

theorem registerParentEntities_nil (db : String → Option PKVal → Bool)
    (v : Nat) (s : ContextManager) (es : List Entity) :
    registerParentEntities db v [] s es = s := rfl

theorem registerParentEntities_cons (db : String → Option PKVal → Bool)
    (v : Nat) (pc : String) (rest : List String) (s : ContextManager)
    (es : List Entity) :
    registerParentEntities db v (pc :: rest) s es =
      registerParentEntities db v rest
        (regdAll s (fetchEntities db v pc (es.map (fun e => e.pk)))) es := rfl

theorem registerParentEntities_preserves_get (db : String → Option PKVal → Bool)
    (v : Nat) (parents : List String) (s : ContextManager) (es : List Entity)
    (K : RegKey) (x : Entity) (h : registryGet s.pkRegistry K = some x) :
    registryGet (registerParentEntities db v parents s es).pkRegistry K = some x := by
  induction parents generalizing s with
  | nil => simpa [registerParentEntities_nil]
  | cons pc rest ih =>
    rw [registerParentEntities_cons]
    exact ih _ (regdAll_preserves_get s _ K x h)

theorem registerParentEntities_preserves_isSome (db : String → Option PKVal → Bool)
    (v : Nat) (parents : List String) (s : ContextManager) (es : List Entity)
    (K : RegKey) (h : (registryGet s.pkRegistry K).isSome = true) :
    (registryGet (registerParentEntities db v parents s es).pkRegistry K).isSome = true := by
  rw [Option.isSome_iff_exists] at h ⊢
  obtain ⟨x, hx⟩ := h
  exact ⟨x, registerParentEntities_preserves_get db v parents s es K x hx⟩

theorem registerParentEntities_preserves_nodup (db : String → Option PKVal → Bool)
    (v : Nat) (parents : List String) (s : ContextManager) (es : List Entity)
    (h : (s.pkRegistry.map Prod.fst).Nodup) :
    ((registerParentEntities db v parents s es).pkRegistry.map Prod.fst).Nodup := by
  induction parents generalizing s with
  | nil => simpa [registerParentEntities_nil]
  | cons pc rest ih =>
    rw [registerParentEntities_cons]
    exact ih _ (regdAll_preserves_nodup s _ h)

theorem registerParentEntities_covers (db : String → Option PKVal → Bool)
    (v : Nat) (parents : List String) (s : ContextManager) (es : List Entity)
    (p : String) (hp : p ∈ parents) (e : Entity) (he : e ∈ es)
    (hdb : db p e.pk = true) (htr : pkTruthy e.pk = true) :
    (registryGet (registerParentEntities db v parents s es).pkRegistry
      (p, e.pk)).isSome = true := by
  induction parents generalizing s with
  | nil => simp at hp
  | cons pc rest ih =>
    rw [registerParentEntities_cons]
    rcases List.mem_cons.1 hp with rfl | hp'
    · apply registerParentEntities_preserves_isSome
      have hrow : fetchRow v p e.pk ∈ fetchEntities db v p (es.map (fun e => e.pk)) :=
        (mem_fetchEntities db v p _ _).2
          ⟨e.pk, List.mem_map_of_mem (fun e => e.pk) he, hdb, rfl⟩
      have hreg : isRegisterable (some (fetchRow v p e.pk)) = true := by
        simp [isRegisterable, fetchRow, htr]
      have hsome := regdAll_covers s _ (fetchRow v p e.pk) hrow hreg
      simpa [regKey, fetchRow] using hsome
    · exact ih _ hp'

theorem registerParentEntities_noop (db : String → Option PKVal → Bool)
    (v : Nat) (parents : List String) (s : ContextManager) (es : List Entity)
    (h : ∀ p ∈ parents, ∀ r ∈ fetchEntities db v p (es.map (fun e => e.pk)),
      isRegisterable (some r) = true →
      (registryGet s.pkRegistry (regKey r)).isSome = true) :
    registerParentEntities db v parents s es = s := by
  induction parents with
  | nil => rfl
  | cons pc rest ih =>
    rw [registerParentEntities_cons,
        regdAll_noop s _ (h pc (List.mem_cons_self pc rest))]
    exact ih (fun p hp => h p (List.mem_cons_of_mem pc hp))

/- ------------------------------------------------------------------ -/
/- Concrete instances used by the witnesses.                          -/
/- ------------------------------------------------------------------ -/

def orderE1 : Entity := ⟨1, "Order", some (PKVal.uuidPK 42), none, []⟩

def orderE2 : Entity := ⟨2, "Order", some (PKVal.uuidPK 42), none, []⟩

def regK1 : RegKey := ("Order", some (PKVal.uuidPK 42))

def stateS1 : ContextManager := (regd initialCM (some orderE1)).1

/- ------------------------------------------------------------------ -/
/- Claim theorems.                                                    -/
/- ------------------------------------------------------------------ -/

/-- Claim C1: for every context and (type name, pk) key the identity map
holds at most one live instance (its key list stays duplicate-free), and
once an instance `x` is registered under key `K`, any sequence of
fetch-path operations (direct `regd` registration, construction
intercepted by `ContextAwareModelBase.__call__`, `RegisteringQuerySet`
iterator registration, raw `regdLookup`) - none of which evict or flush -
keeps `K` bound to the reference-identical `x`, and each individual path
that resolves `K` returns exactly that first-registered instance. -/
theorem registry_identity_map_invariant (s : ContextManager) (K : RegKey)
    (x : Entity) (hnd : (s.pkRegistry.map Prod.fst).Nodup)
    (hx : registryGet s.pkRegistry K = some x) :
    (∀ ops : List FetchOp,
      registryGet (runFetchOps s ops).1.pkRegistry K = some x ∧
      ((runFetchOps s ops).1.pkRegistry.map Prod.fst).Nodup) ∧
    (∀ e : Entity, isRegisterable (some e) = true → regKey e = K →
      regd s (some e) = (s, some x)) ∧
    (∀ f : Option (Unit → Option Entity), regdLookup s K.1 K.2 f = (s, some x)) ∧
    (∀ es : List Entity, ∀ i : Nat, i < es.length →
      isRegisterable (some (es.getD i defaultEntity)) = true →
      regKey (es.getD i defaultEntity) = K →
      (allRegd s es).2.getD i none = some x) := by
  refine ⟨fun ops => ⟨runFetchOps_preserves_get s ops K x hx,
    runFetchOps_preserves_nodup s ops hnd⟩, fun e hr hk => ?_, fun f => ?_,
    fun es => allRegd_output s es K x hx⟩
  · exact regd_cached s e x hr (by rw [hk]; exact hx)
  · have hK : registryGet s.pkRegistry (K.1, K.2) = some x := by
      rcases K with ⟨t, pk⟩; exact hx
    simp [regdLookup, hK]

/-- Witness for C1 at concrete inputs: with `orderE1` registered first,
every later path (re-registration of the duplicate `orderE2`, an
intercepted construction, iterator registration, a raw lookup) returns
`orderE1` itself and the key stays bound to it. -/
theorem registry_identity_map_invariant_witness :
    registryGet (runFetchOps stateS1
      [FetchOp.register (some orderE2), FetchOp.construct orderE2,
       FetchOp.iterate [orderE2],
       FetchOp.lookup "Order" (some (PKVal.uuidPK 42)) none]).1.pkRegistry
      regK1 = some orderE1 ∧
    regd stateS1 (some orderE2) = (stateS1, some orderE1) ∧
    regdLookup stateS1 "Order" (some (PKVal.uuidPK 42)) none = (stateS1, some orderE1) ∧
    (allRegd stateS1 [orderE2]).2.getD 0 none = some orderE1 := by
  have h := registry_identity_map_invariant stateS1 regK1 orderE1
    (by decide) (by decide)
  exact ⟨(h.1 _).1, h.2.1 orderE2 (by decide) (by decide), h.2.2.1 none,
    h.2.2.2 [orderE2] 0 (by decide) (by decide) (by decide)⟩

def zeroPkE : Entity := ⟨7, "Order", some (PKVal.intPK 0), none, []⟩

/-- Counterexample to claim C2 as stated.  The claim's default eligibility
policy reads "the entity has a non-null primary key".  `zeroPkE` has no
`canBeRegd` hook and primary key 0, which is non-null, so under the claim
`regd` should store it under its key and return it as the registered
instance.  The code (context_manager.py line 137) instead tests Python
truthiness of `entity.pk`; 0 is falsy, so the entity is deemed not
registerable: it is returned unchanged and the registry is left empty,
refuting the claim at this concrete input. -/
theorem regd_default_policy_counterexample :
    zeroPkE.canBeRegd = none ∧ zeroPkE.pk ≠ none ∧
    regd initialCM (some zeroPkE) = (initialCM, some zeroPkE) ∧
    registryGet (regd initialCM (some zeroPkE)).1.pkRegistry
      (regKey zeroPkE) = none := by
  decide

/-- Claim C2 (amended): the `regd` contract with the default policy as the
code has it - the entity is non-null and its primary key is truthy
(non-null and neither 0 nor the empty string).  A null entity, an entity
whose hook refuses, or a hook-less entity with a falsy pk is returned
unchanged with the map untouched; an eligible entity whose key is cached
gets the cached instance back with the map untouched; an eligible entity
with a fresh key is appended under its key and returned. -/
theorem regd_register_contract (s : ContextManager) (e : Entity) :
    (regd s none = (s, none)) ∧
    (e.canBeRegd = some false → regd s (some e) = (s, some e)) ∧
    (e.canBeRegd = none → pkTruthy e.pk = false → regd s (some e) = (s, some e)) ∧
    (∀ c : Entity,
      (e.canBeRegd = some true ∨ (e.canBeRegd = none ∧ pkTruthy e.pk = true)) →
      registryGet s.pkRegistry (regKey e) = some c →
      regd s (some e) = (s, some c)) ∧
    ((e.canBeRegd = some true ∨ (e.canBeRegd = none ∧ pkTruthy e.pk = true)) →
      registryGet s.pkRegistry (regKey e) = none →
      regd s (some e) =
        ({ s with pkRegistry := s.pkRegistry ++ [(regKey e, e)] }, some e)) := by
  refine ⟨rfl, ?_, ?_, ?_, ?_⟩
  · intro h
    exact regd_not_registerable s (some e) (by simp [isRegisterable, h])
  · intro h1 h2
    exact regd_not_registerable s (some e) (by simp [isRegisterable, h1, h2])
  · intro c helig hc
    have hr : isRegisterable (some e) = true := by
      rcases helig with h | ⟨h1, h2⟩ <;> simp [isRegisterable, *]
    exact regd_cached s e c hr hc
  · intro helig hc
    have hr : isRegisterable (some e) = true := by
      rcases helig with h | ⟨h1, h2⟩ <;> simp [isRegisterable, *]
    exact regd_fresh s e hr hc

/-- Witness for the amended C2 at concrete inputs: a cached key returns
the cached instance unchanged, and a fresh eligible entity is stored and
returned. -/
theorem regd_register_contract_witness :
    regd stateS1 (some orderE2) = (stateS1, some orderE1) ∧
    regd initialCM (some orderE1) =
      ({ initialCM with pkRegistry := [(regKey orderE1, orderE1)] },
       some orderE1) := by
  have h1 := regd_register_contract stateS1 orderE2
  have h2 := regd_register_contract initialCM orderE1
  refine ⟨h1.2.2.2.1 orderE1 (Or.inr ⟨by decide, by decide⟩) (by decide), ?_⟩
  have hfresh := h2.2.2.2.2 (Or.inr ⟨by decide, by decide⟩) (by decide)
  simpa using hfresh

theorem fireIfQueued_eq (s : ContextManager) :
    fireIfQueued s =
      { s with queuedSaves := [],
               events := s.events ++ s.queuedSaves.map PEvent.execWrite } := by
  unfold fireIfQueued hasQueuedSaves fireQueuedSaves
  by_cases h : s.queuedSaves.isEmpty
  · have h0 : s.queuedSaves = [] := by simpa using h
    cases s
    simp_all
  · simp [h]

theorem abortIfQueued_eq (s : ContextManager) :
    abortIfQueued s = { s with queuedSaves := [] } := by
  unfold abortIfQueued hasQueuedSaves abortAllQueuedSaves
  by_cases h : s.queuedSaves.isEmpty
  · have h0 : s.queuedSaves = [] := by simpa using h
    cases s
    simp_all
  · simp [h]

theorem pushSavepoint_eq (s : ContextManager) :
    pushSavepoint s =
      ({ s with queuedSaves := [],
                events := s.events ++ s.queuedSaves.map PEvent.execWrite ++
                  [PEvent.savepointCreate s.nextHandle],
                nextHandle := s.nextHandle + 1,
                savepoints := s.savepoints ++ [s.nextHandle] },
       s.nextHandle) := by
  unfold pushSavepoint txSavepoint
  rw [fireIfQueued_eq]

theorem commitSavepoint_top (s : ContextManager) (h : Nat)
    (htop : s.savepoints.getLast? = some h) (hf : s.spCommitRaises = false) :
    commitSavepoint s h =
      ({ s with queuedSaves := [],
                events := s.events ++ s.queuedSaves.map PEvent.execWrite ++
                  [PEvent.savepointCommit h],
                savepoints := s.savepoints.dropLast }, none) := by
  unfold commitSavepoint txSavepointCommit
  rw [fireIfQueued_eq]
  simp [htop, hf]

theorem commitSavepoint_not_top (s : ContextManager) (h : Nat)
    (hne : s.savepoints.getLast? ≠ some h) :
    commitSavepoint s h =
      ({ s with queuedSaves := [],
                events := s.events ++ s.queuedSaves.map PEvent.execWrite },
       some Exc.stackDiscipline) := by
  unfold commitSavepoint
  rw [fireIfQueued_eq]
  cases hl : s.savepoints.getLast? with
  | none => simp [hl]
  | some top =>
    have hht : h ≠ top := fun hh => hne (hh ▸ hl)
    simp [hl, hht]

theorem rollbackSavepoint_top (s : ContextManager) (h : Nat)
    (htop : s.savepoints.getLast? = some h) (hf : s.spRollbackRaises = false) :
    rollbackSavepoint s h =
      ({ s with queuedSaves := [],
                events := s.events ++ [PEvent.savepointRollback h],
                savepoints := s.savepoints.dropLast }, none) := by
  unfold rollbackSavepoint txSavepointRollback
  rw [abortIfQueued_eq]
  simp [htop, hf]

theorem rollbackSavepoint_not_top (s : ContextManager) (h : Nat)
    (hne : s.savepoints.getLast? ≠ some h) :
    rollbackSavepoint s h =
      ({ s with queuedSaves := [] }, some Exc.stackDiscipline) := by
  unfold rollbackSavepoint
  rw [abortIfQueued_eq]
  cases hl : s.savepoints.getLast? with
  | none => simp [hl]
  | some top =>
    have hht : h ≠ top := fun hh => hne (hh ▸ hl)
    simp [hl, hht]

/-- Claim C3: savepoint stack discipline.  When `h` is the top of the
stack (and the persistence primitives do not fault), `commitSavepoint`
resp. `rollbackSavepoint` invoke the persistence layer's commit resp.
rollback (the `savepointCommit h` / `savepointRollback h` event) and pop
the stack; when `h` is not the top (including an empty stack) both raise
the stack-discipline ValueError. -/
theorem savepoint_stack_discipline (s : ContextManager) (h : Nat)
    (hcf : s.spCommitRaises = false) (hrf : s.spRollbackRaises = false) :
    (s.savepoints.getLast? = some h →
      commitSavepoint s h =
        ({ s with queuedSaves := [],
                  events := s.events ++ s.queuedSaves.map PEvent.execWrite ++
                    [PEvent.savepointCommit h],
                  savepoints := s.savepoints.dropLast }, none) ∧
      rollbackSavepoint s h =
        ({ s with queuedSaves := [],
                  events := s.events ++ [PEvent.savepointRollback h],
                  savepoints := s.savepoints.dropLast }, none)) ∧
    (s.savepoints.getLast? ≠ some h →
      (commitSavepoint s h).2 = some Exc.stackDiscipline ∧
      (rollbackSavepoint s h).2 = some Exc.stackDiscipline) := by
  constructor
  · intro htop
    exact ⟨commitSavepoint_top s h htop hcf, rollbackSavepoint_top s h htop hrf⟩
  · intro hne
    rw [commitSavepoint_not_top s h hne, rollbackSavepoint_not_top s h hne]
    exact ⟨rfl, rfl⟩

def stackS3 : ContextManager :=
  (pushSavepoint (pushSavepoint (pushSavepoint initialCM).1).1).1

/-- Witness for C3: with savepoints 0, 1, 2 pushed in that order,
committing 1 or rolling back 0 while 2 is top fails with the
stack-discipline error; committing 2 succeeds and leaves 1 as top. -/
theorem savepoint_stack_discipline_witness :
    (commitSavepoint stackS3 1).2 = some Exc.stackDiscipline ∧
    (rollbackSavepoint stackS3 0).2 = some Exc.stackDiscipline ∧
    (commitSavepoint stackS3 2).2 = none ∧
    (commitSavepoint stackS3 2).1.savepoints.getLast? = some 1 := by
  have hfail1 := (savepoint_stack_discipline stackS3 1 (by decide) (by decide)).2
    (by decide)
  have hfail0 := (savepoint_stack_discipline stackS3 0 (by decide) (by decide)).2
    (by decide)
  have hok := (savepoint_stack_discipline stackS3 2 (by decide) (by decide)).1
    (by decide)
  refine ⟨hfail1.1, hfail0.2, ?_, ?_⟩
  · rw [hok.1]
  · rw [hok.1]
    decide

/-- Claim C10: when the stack-discipline check fails (including on an
empty stack, where every handle fails it), `commitSavepoint` and
`rollbackSavepoint` raise and leave the savepoint stack exactly as it was,
and the events equations show the persistence layer's savepoint commit /
rollback primitive is never invoked (the commit path only appends the
deferred-write executions, the rollback path appends nothing). -/
theorem savepoint_discipline_failure_frame (s : ContextManager) (h : Nat)
    (hne : s.savepoints.getLast? ≠ some h) :
    ((commitSavepoint s h).2 = some Exc.stackDiscipline ∧
     (commitSavepoint s h).1.savepoints = s.savepoints ∧
     (commitSavepoint s h).1.events =
       s.events ++ s.queuedSaves.map PEvent.execWrite ∧
     (commitSavepoint s h).1.pkRegistry = s.pkRegistry) ∧
    ((rollbackSavepoint s h).2 = some Exc.stackDiscipline ∧
     (rollbackSavepoint s h).1.savepoints = s.savepoints ∧
     (rollbackSavepoint s h).1.events = s.events ∧
     (rollbackSavepoint s h).1.pkRegistry = s.pkRegistry) := by
  rw [commitSavepoint_not_top s h hne, rollbackSavepoint_not_top s h hne]
  exact ⟨⟨rfl, rfl, rfl, rfl⟩, ⟨rfl, rfl, rfl, rfl⟩⟩

/-- Witness for C10 at concrete inputs: a non-top handle on a three-deep
stack and any handle on an empty stack both fail, leaving the stack
untouched. -/
theorem savepoint_discipline_failure_frame_witness :
    (commitSavepoint stackS3 1).1.savepoints = stackS3.savepoints ∧
    (rollbackSavepoint stackS3 1).1.events = stackS3.events ∧
    (commitSavepoint initialCM 0).2 = some Exc.stackDiscipline ∧
    (rollbackSavepoint initialCM 0).1.savepoints = [] := by
  have h1 := savepoint_discipline_failure_frame stackS3 1 (by decide)
  have h2 := savepoint_discipline_failure_frame initialCM 0 (by decide)
  exact ⟨h1.1.2.1, h1.2.2.2.1, h2.1.1, h2.2.2.1⟩

/-- Claim C5: deferred-write boundary semantics.  Writes queued before a
`pushSavepoint` are executed exactly once (each appears once as an
`execWrite` event, and the queue is emptied so they can never run again),
strictly before the `savepointCreate` event; likewise before the
`savepointCommit` event on a successful commit; and writes still queued
when `rollbackSavepoint` runs are discarded - the queue is emptied and no
`execWrite` event is ever appended, whether or not the rollback
succeeds. -/
theorem deferred_write_boundaries (s : ContextManager) (h : Nat) :
    ((pushSavepoint s).1.events =
       s.events ++ s.queuedSaves.map PEvent.execWrite ++
         [PEvent.savepointCreate (pushSavepoint s).2] ∧
     (pushSavepoint s).1.queuedSaves = []) ∧
    (s.spCommitRaises = false → s.savepoints.getLast? = some h →
      (commitSavepoint s h).1.events =
        s.events ++ s.queuedSaves.map PEvent.execWrite ++
          [PEvent.savepointCommit h] ∧
      (commitSavepoint s h).1.queuedSaves = []) ∧
    ((rollbackSavepoint s h).1.queuedSaves = [] ∧
     ∃ tail : List PEvent, (rollbackSavepoint s h).1.events = s.events ++ tail ∧
       ∀ w : Nat, PEvent.execWrite w ∉ tail) := by
  refine ⟨?_, ?_, ?_⟩
  · rw [pushSavepoint_eq]
    exact ⟨rfl, rfl⟩
  · intro hf htop
    rw [commitSavepoint_top s h htop hf]
    exact ⟨rfl, rfl⟩
  · by_cases htop : s.savepoints.getLast? = some h
    · by_cases hf : s.spRollbackRaises = false
      · rw [rollbackSavepoint_top s h htop hf]
        exact ⟨rfl, [PEvent.savepointRollback h], rfl, by simp⟩
      · have hf' : s.spRollbackRaises = true := by
          simpa using hf
        unfold rollbackSavepoint txSavepointRollback
        rw [abortIfQueued_eq]
        simp [htop, hf']
    · rw [rollbackSavepoint_not_top s h htop]
      exact ⟨rfl, [], by simp, by simp⟩

def queuedS5 : ContextManager :=
  { stackS3 with queuedSaves := [10, 11] }

/-- Witness for C5 at concrete inputs: two queued writes are executed
exactly once before the new savepoint is created, and are discarded
unexecuted by a rollback. -/
theorem deferred_write_boundaries_witness :
    (pushSavepoint queuedS5).1.events =
      queuedS5.events ++ [PEvent.execWrite 10, PEvent.execWrite 11] ++
        [PEvent.savepointCreate (pushSavepoint queuedS5).2] ∧
    (pushSavepoint queuedS5).1.queuedSaves = [] ∧
    (commitSavepoint queuedS5 2).1.queuedSaves = [] ∧
    (rollbackSavepoint queuedS5 2).1.queuedSaves = [] ∧
    (rollbackSavepoint queuedS5 2).1.events = queuedS5.events ++
      [PEvent.savepointRollback 2] := by
  have hp := deferred_write_boundaries queuedS5 2
  refine ⟨?_, hp.1.2, (hp.2.1 (by decide) (by decide)).2, hp.2.2.1, ?_⟩
  · have := hp.1.1
    simpa using this
  · decide

theorem commitSavepoint_top_fault (s : ContextManager) (h : Nat)
    (htop : s.savepoints.getLast? = some h) (hf : s.spCommitRaises = true) :
    commitSavepoint s h =
      ({ s with queuedSaves := [],
                events := s.events ++ s.queuedSaves.map PEvent.execWrite },
       some Exc.dbError) := by
  unfold commitSavepoint txSavepointCommit
  rw [fireIfQueued_eq]
  simp [htop, hf]

theorem rollbackSavepoint_top_fault (s : ContextManager) (h : Nat)
    (htop : s.savepoints.getLast? = some h) (hf : s.spRollbackRaises = true) :
    rollbackSavepoint s h =
      ({ s with queuedSaves := [] }, some Exc.dbError) := by
  unfold rollbackSavepoint txSavepointRollback
  rw [abortIfQueued_eq]
  simp [htop, hf]

theorem commitSavepoint_txDepth (s : ContextManager) (h : Nat) :
    (commitSavepoint s h).1.txDepth = s.txDepth := by
  by_cases htop : s.savepoints.getLast? = some h
  · by_cases hf : s.spCommitRaises = false
    · rw [commitSavepoint_top s h htop hf]
    · have hf' : s.spCommitRaises = true := by simpa using hf
      rw [commitSavepoint_top_fault s h htop hf']
  · rw [commitSavepoint_not_top s h htop]

theorem rollbackSavepoint_txDepth (s : ContextManager) (h : Nat) :
    (rollbackSavepoint s h).1.txDepth = s.txDepth := by
  by_cases htop : s.savepoints.getLast? = some h
  · by_cases hf : s.spRollbackRaises = false
    · rw [rollbackSavepoint_top s h htop hf]
    · have hf' : s.spRollbackRaises = true := by simpa using hf
      rw [rollbackSavepoint_top_fault s h htop hf']
  · rw [rollbackSavepoint_not_top s h htop]

theorem savepointContextExit_commit_ok (s₂ : ContextManager) (n : Nat)
    (c : SavepointContext) (hsp : c.savepoint = some n)
    (hmg : c.managingTransaction = true)
    (htop : s₂.savepoints.getLast? = some n) (hcf : s₂.spCommitRaises = false) :
    savepointContextExit s₂ c false =
      ({ s₂ with queuedSaves := [],
                 events := s₂.events ++ s₂.queuedSaves.map PEvent.execWrite ++
                   [PEvent.savepointCommit n] ++ [PEvent.txCommit] ++
                   [PEvent.txLeave],
                 savepoints := s₂.savepoints.dropLast,
                 txDepth := s₂.txDepth - 1,
                 txManaged := if s₂.txDepth - 1 = 0 then false else s₂.txManaged },
       none) := by
  unfold savepointContextExit txCommit txLeaveManagement
  rw [hsp, hmg, Option.getD_some, commitSavepoint_top s₂ n htop hcf]
  simp

theorem savepointContextExit_rollback_ok (s₂ : ContextManager) (n : Nat)
    (c : SavepointContext) (hsp : c.savepoint = some n)
    (hmg : c.managingTransaction = true)
    (htop : s₂.savepoints.getLast? = some n) (hrf : s₂.spRollbackRaises = false) :
    savepointContextExit s₂ c true =
      ({ s₂ with queuedSaves := [],
                 events := s₂.events ++ [PEvent.savepointRollback n] ++
                   [PEvent.txRollback] ++ [PEvent.txLeave],
                 savepoints := s₂.savepoints.dropLast,
                 txDepth := s₂.txDepth - 1,
                 txManaged := if s₂.txDepth - 1 = 0 then false else s₂.txManaged },
       none) := by
  unfold savepointContextExit txRollback txLeaveManagement
  rw [hsp, hmg, Option.getD_some, rollbackSavepoint_top s₂ n htop hrf]
  simp

theorem savepointContextExit_release (s₂ : ContextManager) (c : SavepointContext)
    (hmg : c.managingTransaction = true) (raised : Bool) :
    (savepointContextExit s₂ c raised).1.txDepth = s₂.txDepth - 1 ∧
    ∃ pre : List PEvent,
      (savepointContextExit s₂ c raised).1.events = pre ++ [PEvent.txLeave] := by
  unfold savepointContextExit txCommit txRollback txLeaveManagement
  cases raised with
  | false =>
    cases hcs : commitSavepoint s₂ (c.savepoint.getD 0) with
    | mk s' e =>
      have hdep := commitSavepoint_txDepth s₂ (c.savepoint.getD 0)
      rw [hcs] at hdep
      cases e with
      | none =>
        simp only [hcs, hmg, if_true]
        have hd2 : s'.txDepth = s₂.txDepth := by simpa using hdep
        exact ⟨by rw [hd2], _, rfl⟩
      | some ex =>
        simp only [hcs, hmg, if_true]
        have hd2 : s'.txDepth = s₂.txDepth := by simpa using hdep
        exact ⟨by rw [hd2], _, rfl⟩
  | true =>
    cases hcs : rollbackSavepoint s₂ (c.savepoint.getD 0) with
    | mk s' e =>
      have hdep := rollbackSavepoint_txDepth s₂ (c.savepoint.getD 0)
      rw [hcs] at hdep
      cases e with
      | none =>
        simp only [hcs, hmg, if_true]
        have hd2 : s'.txDepth = s₂.txDepth := by simpa using hdep
        exact ⟨by rw [hd2], _, rfl⟩
      | some ex =>
        simp only [hcs, hmg, if_true]
        have hd2 : s'.txDepth = s₂.txDepth := by simpa using hdep
        exact ⟨by rw [hd2], _, rfl⟩

theorem getLast?_append_singleton {α : Type} (l : List α) (a : α) :
    (l ++ [a]).getLast? = some a := by
  induction l with
  | nil => rfl
  | cons x xs ih =>
    rw [List.cons_append, List.getLast?_cons, ih]
    rfl

theorem dropLast_append_singleton {α : Type} (l : List α) (a : α) :
    (l ++ [a]).dropLast = l := by
  simp

/-- The context state right after `SavepointContext.__enter__` when the
scope starts the outer transaction: enter management, set managed, push a
savepoint. -/
def enterState (s : ContextManager) : ContextManager :=
  { s with txDepth := s.txDepth + 1, txManaged := true,
           queuedSaves := [],
           events := s.events ++ [PEvent.txEnter] ++
             s.queuedSaves.map PEvent.execWrite ++
             [PEvent.savepointCreate s.nextHandle],
           nextHandle := s.nextHandle + 1,
           savepoints := s.savepoints ++ [s.nextHandle] }

theorem savepointContextEnter_managing (s : ContextManager)
    (h0 : s.txManaged = false) :
    savepointContextEnter s (savepointContextInit s) =
      (enterState s, ⟨some s.nextHandle, true⟩) := by
  unfold savepointContextInit savepointContextEnter txEnterManagement
    txSetManaged txIsManaged
  rw [h0]
  simp only [Bool.not_false, if_true]
  rw [pushSavepoint_eq]
  simp [enterState]

/-- Claim C4 (amended): scoped savepoint acquisition.  For a scope that
starts its own outer transaction (nothing managed on entry, clean fault
flags) and whose body leaves the savepoint stack and the transaction
bookkeeping alone: on normal exit the savepoint is committed and then the
outer transaction committed; on exceptional exit the savepoint is rolled
back, the outer transaction rolled back, and the body's exception
propagates; on both exits the savepoint stack is restored and zero outer
transactions remain active.  Amendment forced by the counterexample: when
the savepoint commit/rollback itself raises, the outer commit/rollback is
skipped (it sits inside the try block, not the finally clause) - only the
outer-transaction closing (release) step is guaranteed, which the last
conjunct states for every exit path with arbitrary fault flags. -/
theorem scoped_savepoint_acquisition (s : ContextManager)
    (body : ContextManager → ContextManager)
    (h0 : s.txManaged = false) (hd : s.txDepth = 0)
    (hcf : s.spCommitRaises = false) (hrf : s.spRollbackRaises = false)
    (hb : ∀ t : ContextManager,
      (body t).savepoints = t.savepoints ∧ (body t).txDepth = t.txDepth ∧
      (body t).txManaged = t.txManaged ∧
      (body t).spCommitRaises = t.spCommitRaises ∧
      (body t).spRollbackRaises = t.spRollbackRaises) :
    ((scopedSavepointRun s body false).2 = none ∧
     (scopedSavepointRun s body false).1.savepoints = s.savepoints ∧
     (scopedSavepointRun s body false).1.txDepth = 0 ∧
     (scopedSavepointRun s body false).1.txManaged = false ∧
     PEvent.txCommit ∈ (scopedSavepointRun s body false).1.events) ∧
    ((scopedSavepointRun s body true).2 = some Exc.blockExc ∧
     (scopedSavepointRun s body true).1.savepoints = s.savepoints ∧
     (scopedSavepointRun s body true).1.txDepth = 0 ∧
     (scopedSavepointRun s body true).1.txManaged = false ∧
     PEvent.txRollback ∈ (scopedSavepointRun s body true).1.events) ∧
    (∀ s' : ContextManager, ∀ raised : Bool, s'.txManaged = false →
      (scopedSavepointRun s' body raised).1.txDepth = s'.txDepth ∧
      PEvent.txLeave ∈ (scopedSavepointRun s' body raised).1.events) := by
  have henter := savepointContextEnter_managing s h0
  obtain ⟨hbs, hbd, hbm, hbc, hbr⟩ := hb (enterState s)
  have hes : (enterState s).savepoints = s.savepoints ++ [s.nextHandle] := rfl
  have htop : (body (enterState s)).savepoints.getLast? = some s.nextHandle := by
    rw [hbs, hes]
    exact getLast?_append_singleton _ _
  have hdepth : (body (enterState s)).txDepth = s.txDepth + 1 := by
    rw [hbd]; rfl
  refine ⟨?_, ?_, ?_⟩
  · have hcf' : (body (enterState s)).spCommitRaises = false := by
      rw [hbc]; exact hcf
    have hexit := savepointContextExit_commit_ok (body (enterState s))
      s.nextHandle ⟨some s.nextHandle, true⟩ rfl rfl htop hcf'
    simp only [scopedSavepointRun, henter, hexit]
    refine ⟨rfl, ?_, ?_, ?_, ?_⟩
    · rw [hbs, hes]
      exact dropLast_append_singleton _ _
    · simp [hdepth, hd]
    · simp [hdepth, hd]
    · simp
  · have hrf' : (body (enterState s)).spRollbackRaises = false := by
      rw [hbr]; exact hrf
    have hexit := savepointContextExit_rollback_ok (body (enterState s))
      s.nextHandle ⟨some s.nextHandle, true⟩ rfl rfl htop hrf'
    simp only [scopedSavepointRun, henter, hexit]
    refine ⟨rfl, ?_, ?_, ?_, ?_⟩
    · rw [hbs, hes]
      exact dropLast_append_singleton _ _
    · simp [hdepth, hd]
    · simp [hdepth, hd]
    · simp
  · intro s' raised h0'
    have henter' := savepointContextEnter_managing s' h0'
    have hbd' := (hb (enterState s')).2.1
    have hdepth' : (body (enterState s')).txDepth = s'.txDepth + 1 := by
      rw [hbd']; rfl
    obtain ⟨hrd, pre, hpre⟩ := savepointContextExit_release (body (enterState s'))
      ⟨some s'.nextHandle, true⟩ rfl raised
    cases hq : savepointContextExit (body (enterState s'))
        ⟨some s'.nextHandle, true⟩ raised with
    | mk s₃ e =>
      rw [hq] at hrd hpre
      have hd3 : s₃.txDepth = s'.txDepth := by
        simp [hdepth'] at hrd
        exact hrd
      have he3 : s₃.events = pre ++ [PEvent.txLeave] := hpre
      cases e with
      | none =>
        simp only [scopedSavepointRun, henter', hq]
        exact ⟨hd3, by simp [he3]⟩
      | some ex =>
        simp only [scopedSavepointRun, henter', hq]
        exact ⟨hd3, by simp [he3]⟩

def faultyCM : ContextManager :=
  { initialCM with spRollbackRaises := true }

/-- Counterexample to claim C4 as stated.  Run the scoped savepoint block
on a context that starts its own outer transaction, with a body that
raises, and with the persistence layer's savepoint rollback primitive
itself raising.  The claim demands that the outer transaction be rolled
back "even if the savepoint commit/rollback itself raises"; in the code
the outer `transaction.rollback()` sits inside the try block after the
savepoint rollback, so it is skipped: no `txRollback` event occurs.  Only
the closing `leave_transaction_management` in the finally clause runs. -/
theorem scoped_rollback_counterexample :
    (savepointContextInit faultyCM).managingTransaction = true ∧
    (scopedSavepointRun faultyCM id true).2 = some Exc.dbError ∧
    PEvent.txRollback ∉ (scopedSavepointRun faultyCM id true).1.events ∧
    PEvent.txLeave ∈ (scopedSavepointRun faultyCM id true).1.events := by
  decide

/-- Witness for the amended C4 at concrete inputs: a fresh context running
the scoped block with an identity body. -/
theorem scoped_savepoint_acquisition_witness :
    (scopedSavepointRun initialCM id false).2 = none ∧
    (scopedSavepointRun initialCM id false).1.savepoints = [] ∧
    (scopedSavepointRun initialCM id false).1.txDepth = 0 ∧
    PEvent.txCommit ∈ (scopedSavepointRun initialCM id false).1.events ∧
    (scopedSavepointRun initialCM id true).2 = some Exc.blockExc ∧
    (scopedSavepointRun initialCM id true).1.savepoints = [] ∧
    PEvent.txRollback ∈ (scopedSavepointRun initialCM id true).1.events := by
  have h := scoped_savepoint_acquisition initialCM id rfl rfl rfl rfl
    (fun t => ⟨rfl, rfl, rfl, rfl, rfl⟩)
  exact ⟨h.1.1, h.1.2.1, h.1.2.2.1, h.1.2.2.2.2, h.2.1.1, h.2.1.2.1,
    h.2.1.2.2.2.2⟩

/-- Claim C6: the `regdLookup` contract.  A cached entry is returned with
the state untouched; on a miss with a fetch function, the fetch runs - a
null result yields null with the registry unchanged, a non-null result is
passed through `regd` (so an eligible result ends up cached under its key
and the canonical instance is returned); on a miss with no fetch function,
null is returned with the state untouched. -/
theorem regdLookup_contract (s : ContextManager) (t : String) (pk : Option PKVal) :
    (∀ x : Entity, registryGet s.pkRegistry (t, pk) = some x →
      ∀ f : Option (Unit → Option Entity), regdLookup s t pk f = (s, some x)) ∧
    (registryGet s.pkRegistry (t, pk) = none →
      regdLookup s t pk none = (s, none) ∧
      (∀ f : Unit → Option Entity, f () = none →
        regdLookup s t pk (some f) = (s, none)) ∧
      (∀ (f : Unit → Option Entity) (r : Entity), f () = some r →
        regdLookup s t pk (some f) = regd s (some r) ∧
        (isRegisterable (some r) = true →
          ∃ c : Entity, (regdLookup s t pk (some f)).2 = some c ∧
            registryGet (regdLookup s t pk (some f)).1.pkRegistry
              (regKey r) = some c))) := by
  constructor
  · intro x hx f
    simp [regdLookup, hx]
  · intro hn
    refine ⟨by simp [regdLookup, hn], fun f hf => by simp [regdLookup, hn, hf],
      fun f r hf => ?_⟩
    have heq : regdLookup s t pk (some f) = regd s (some r) := by
      simp [regdLookup, hn, hf]
    refine ⟨heq, fun hr => ?_⟩
    rw [heq]
    cases hc : registryGet s.pkRegistry (regKey r) with
    | some c =>
      rw [regd_cached s r c hr hc]
      exact ⟨c, rfl, hc⟩
    | none =>
      rw [regd_fresh s r hr hc]
      refine ⟨r, rfl, ?_⟩
      rw [registryGet_append_none _ _ _ hc]
      simp [registryGet]

def widgetE : Entity := ⟨3, "Widget", some (PKVal.uuidPK 1), none, []⟩

/-- Witness for C6 at concrete inputs: a hit returns the cached instance,
a miss without fetch and a miss whose fetch returns null both yield null
with the state untouched, and a miss whose fetch returns an entity defers
to `regd`. -/
theorem regdLookup_contract_witness :
    regdLookup stateS1 "Order" (some (PKVal.uuidPK 42)) none =
      (stateS1, some orderE1) ∧
    regdLookup stateS1 "Widget" (some (PKVal.uuidPK 1)) none = (stateS1, none) ∧
    regdLookup stateS1 "Widget" (some (PKVal.uuidPK 1))
      (some (fun _ => none)) = (stateS1, none) ∧
    regdLookup stateS1 "Widget" (some (PKVal.uuidPK 1))
      (some (fun _ => some widgetE)) = regd stateS1 (some widgetE) := by
  have h := regdLookup_contract stateS1 "Order" (some (PKVal.uuidPK 42))
  have h2 := regdLookup_contract stateS1 "Widget" (some (PKVal.uuidPK 1))
  exact ⟨h.1 orderE1 (by decide) none, (h2.2 (by decide)).1,
    (h2.2 (by decide)).2.1 _ rfl,
    ((h2.2 (by decide)).2.2 (fun _ => some widgetE) widgetE rfl).1⟩

/-- Claim C7: `ejectFromRegistry` removes exactly the entry keyed by the
argument's (type name, pk) when present - depending only on the key, not
on whether the cached instance is the very argument object - leaves every
other entry untouched, is a no-op when the key is absent, and afterwards a
lookup of that key with no fetch function yields null. -/
theorem evict_contract (s : ContextManager) (obj : Entity) :
    registryGet (ejectFromRegistry s obj).pkRegistry (regKey obj) = none ∧
    (∀ k : RegKey, k ≠ regKey obj →
      registryGet (ejectFromRegistry s obj).pkRegistry k =
        registryGet s.pkRegistry k) ∧
    (registryGet s.pkRegistry (regKey obj) = none →
      ejectFromRegistry s obj = s) ∧
    (∀ obj₂ : Entity, regKey obj₂ = regKey obj →
      ejectFromRegistry s obj₂ = ejectFromRegistry s obj) ∧
    regdLookup (ejectFromRegistry s obj) obj.className obj.pk none =
      (ejectFromRegistry s obj, none) := by
  have hgone : registryGet (ejectFromRegistry s obj).pkRegistry (regKey obj) = none := by
    by_cases hs : (registryGet s.pkRegistry (regKey obj)).isSome
    · simp only [ejectFromRegistry, hs, if_true]
      exact registryGet_erase_self _ _
    · have hn : registryGet s.pkRegistry (regKey obj) = none := by
        cases h : registryGet s.pkRegistry (regKey obj) with
        | none => rfl
        | some c => rw [h] at hs; simp at hs
      simp only [ejectFromRegistry, hs, if_false]
      exact hn
  refine ⟨hgone, ?_, ?_, ?_, ?_⟩
  · intro k hk
    by_cases hs : (registryGet s.pkRegistry (regKey obj)).isSome
    · simp only [ejectFromRegistry, hs, if_true]
      exact registryGet_erase_other _ _ k hk
    · simp [ejectFromRegistry, hs]
  · intro hn
    simp [ejectFromRegistry, hn]
  · intro obj₂ hk
    unfold ejectFromRegistry
    rw [hk]
  · have hkey : (obj.className, obj.pk) = regKey obj := rfl
    simp [regdLookup, hkey, hgone]

/-- Witness for C7 at concrete inputs: evicting via a *different* instance
with the same key removes the cached entry, a lookup afterwards yields
null, and evicting an unregistered entity is a no-op. -/
theorem evict_contract_witness :
    registryGet (ejectFromRegistry stateS1 orderE2).pkRegistry regK1 = none ∧
    ejectFromRegistry stateS1 widgetE = stateS1 ∧
    regdLookup (ejectFromRegistry stateS1 orderE2) "Order"
      (some (PKVal.uuidPK 42)) none = (ejectFromRegistry stateS1 orderE2, none) := by
  have h := evict_contract stateS1 orderE2
  have h2 := evict_contract stateS1 widgetE
  exact ⟨h.1, h2.2.2.1 (by decide), h.2.2.2.2⟩

def mgrOrder : ManagerMeta :=
  ⟨"Order", ["pk", "id"], [("customer__pk", "customer")]⟩

/-- Counterexample to claim C8 as stated.  The claim says the registry
short-circuit is taken exactly when (among the other conditions) there is
exactly one criterion.  The code only counts keyword criteria
(`len(kw) == 1`, context_aware_model.py line 72) and never inspects the
positional criteria (`*args`, for example Q objects).  With one positional
criterion and one keyword pk criterion - two criteria in total - the
short-circuit is still taken, refuting the "exactly one criterion"
biconditional at this concrete input. -/
theorem manager_get_dispatch_counterexample :
    managerGetPath mgrOrder (some initialCM) [()] [("pk", PKVal.uuidPK 7)] =
      GetPath.registryLookup (PKVal.uuidPK 7) ∧
    ([()] : List Unit).length + [("pk", PKVal.uuidPK 7)].length = 2 := by
  decide

/-- Claim C8 (amended): cache-aware fetch dispatch, with "exactly one
criterion" amended to "exactly one keyword criterion (positional criteria
are not inspected by the dispatch)".  The registry short-circuit is taken
exactly when a context exists, the keyword criteria are a single `(k, v)`,
the key - after stripping an optional `__exact` suffix - is in the
primary-key-addressing attribute set, and the value is a uuid; a single
keyword criterion naming a reverse one-to-one attribute instead scans the
registered entities of the type in memory before falling back to a real
query; every other call uses the real query path; and on the short-circuit
`managerGet` delegates to `regdLookup` with the fall-through fetch
function. -/
theorem manager_get_dispatch (mgr : ManagerMeta) (ctx : ContextManager)
    (args : List Unit) (kw : List (String × PKVal)) :
    (∀ v : PKVal,
      managerGetPath mgr (some ctx) args kw = GetPath.registryLookup v ↔
        ∃ k : String, kw = [(k, v)] ∧ v.isUUID = true ∧
          mgr.pkAttNames.contains (stripExact k) = true) ∧
    (∀ (k : String) (v : PKVal) (fieldName : String), kw = [(k, v)] →
      (v.isUUID && mgr.pkAttNames.contains (stripExact k)) = false →
      strLookup mgr.oneToOneAttNames (stripExact k) = some fieldName →
      managerGetPath mgr (some ctx) args kw =
        (match findOneToOne (registeredEntities ctx mgr.modelName) fieldName v with
         | some obj => GetPath.oneToOneHit obj
         | none => GetPath.realQuery)) ∧
    (∀ (k : String) (v : PKVal), kw = [(k, v)] →
      (v.isUUID && mgr.pkAttNames.contains (stripExact k)) = false →
      strLookup mgr.oneToOneAttNames (stripExact k) = none →
      managerGetPath mgr (some ctx) args kw = GetPath.realQuery) ∧
    ((∀ (k : String) (v : PKVal), kw ≠ [(k, v)]) →
      managerGetPath mgr (some ctx) args kw = GetPath.realQuery) ∧
    managerGetPath mgr none args kw = GetPath.realQuery ∧
    (∀ (cands : List (Option PKVal × Entity)) (fieldName : String) (v : PKVal),
      (findOneToOne cands fieldName v = none ↔
        ∀ p ∈ cands, attrLookup p.2.attrs (fieldName ++ "_id") ≠ some v) ∧
      (∀ obj : Entity, findOneToOne cands fieldName v = some obj →
        obj ∈ cands.map Prod.snd ∧
        attrLookup obj.attrs (fieldName ++ "_id") = some v)) ∧
    (∀ v : PKVal,
      managerGetPath mgr (some ctx) args kw = GetPath.registryLookup v →
      ∀ superGet : Unit → Option Entity,
        managerGet mgr (some ctx) args kw superGet =
          (some (regdLookup ctx mgr.modelName (some v) (some superGet)).1,
           (regdLookup ctx mgr.modelName (some v) (some superGet)).2)) := by
  have hsingle : ∀ (k0 : String) (v0 : PKVal),
      managerGetPath mgr (some ctx) args [(k0, v0)] =
        if (v0.isUUID && mgr.pkAttNames.contains (stripExact k0)) = true
        then GetPath.registryLookup v0
        else
          match strLookup mgr.oneToOneAttNames (stripExact k0) with
          | some fieldName =>
            match findOneToOne (registeredEntities ctx mgr.modelName)
                fieldName v0 with
            | some obj => GetPath.oneToOneHit obj
            | none => GetPath.realQuery
          | none => GetPath.realQuery := fun k0 v0 => rfl
  refine ⟨?_, ?_, ?_, ?_, rfl, ?_, ?_⟩
  · intro v
    rcases kw with _ | ⟨⟨k0, v0⟩, tail⟩
    · constructor
      · intro hp
        simp [managerGetPath] at hp
      · rintro ⟨k, hk, _, _⟩
        simp at hk
    · rcases tail with _ | ⟨p2, tail2⟩
      · rw [hsingle k0 v0]
        by_cases hPK : (v0.isUUID && mgr.pkAttNames.contains (stripExact k0)) = true
        · rw [if_pos hPK]
          constructor
          · intro hp
            have hv : v0 = v := by
              simpa using hp
            subst hv
            obtain ⟨huuid, hcont⟩ : v0.isUUID = true ∧
                mgr.pkAttNames.contains (stripExact k0) = true := by
              simpa using hPK
            exact ⟨k0, rfl, huuid, hcont⟩
          · rintro ⟨k, hk, huuid, hcont⟩
            simp only [List.cons.injEq, Prod.mk.injEq, and_true] at hk
            rw [hk.2]
        · rw [if_neg hPK]
          constructor
          · intro hp
            split at hp
            · split at hp <;> simp at hp
            · simp at hp
          · rintro ⟨k, hk, huuid, hcont⟩
            simp only [List.cons.injEq, Prod.mk.injEq, and_true] at hk
            obtain ⟨hk0, hv0⟩ := hk
            exact absurd (by rw [hv0, hk0, huuid, hcont]; rfl) hPK
      · constructor
        · intro hp
          simp [managerGetPath] at hp
        · rintro ⟨k, hk, _, _⟩
          simp at hk
  · intro k v fn hk hPK hsl
    subst hk
    rw [hsingle k v, if_neg (by rw [hPK]; simp), hsl]
  · intro k v hk hPK hsl
    subst hk
    rw [hsingle k v, if_neg (by rw [hPK]; simp), hsl]
  · intro hno
    rcases kw with _ | ⟨⟨k0, v0⟩, tail⟩
    · rfl
    · rcases tail with _ | ⟨p2, tail2⟩
      · exact absurd rfl (hno k0 v0)
      · rfl
  · intro cands fn v
    induction cands with
    | nil =>
      refine ⟨by simp [findOneToOne], fun obj hobj => by simp [findOneToOne] at hobj⟩
    | cons p rest ih =>
      obtain ⟨pk0, obj0⟩ := p
      by_cases hat : attrLookup obj0.attrs (fn ++ "_id") = some v
      · refine ⟨⟨fun h => ?_, fun h => ?_⟩, fun obj hobj => ?_⟩
        · simp [findOneToOne, hat] at h
        · exact absurd hat (h (pk0, obj0) (List.mem_cons_self _ _))
        · simp only [findOneToOne, if_pos hat, Option.some_inj] at hobj
          subst hobj
          exact ⟨by simp, hat⟩
      · obtain ⟨ih1, ih2⟩ := ih
        refine ⟨⟨fun h => ?_, fun h => ?_⟩, fun obj hobj => ?_⟩
        · intro p hp
          rcases List.mem_cons.1 hp with rfl | hp'
          · exact hat
          · simp only [findOneToOne, if_neg hat] at h
            exact ih1.1 h p hp'
        · simp only [findOneToOne, if_neg hat]
          exact ih1.2 (fun p hp => h p (List.mem_cons_of_mem _ hp))
        · simp only [findOneToOne, if_neg hat] at hobj
          obtain ⟨hm, ha⟩ := ih2 obj hobj
          exact ⟨by simp [List.mem_cons]; right; simpa using hm, ha⟩
  · intro v hp superGet
    simp only [managerGet, hp]

def custOrderE : Entity :=
  ⟨4, "Order", some (PKVal.uuidPK 9), none, [("customer_id", PKVal.uuidPK 5)]⟩

def stateS2 : ContextManager := (regd initialCM (some custOrderE)).1

/-- Witness for the amended C8 at concrete inputs: a single keyword
uuid-pk criterion (with `__exact` suffix) takes the registry short-circuit
and delegates to `regdLookup`; a reverse one-to-one criterion finds the
registered entity by its foreign-key attribute; a plain attribute
criterion uses the real query path. -/
theorem manager_get_dispatch_witness :
    managerGetPath mgrOrder (some stateS1) [] [("pk__exact", PKVal.uuidPK 42)] =
      GetPath.registryLookup (PKVal.uuidPK 42) ∧
    managerGet mgrOrder (some stateS1) [] [("pk__exact", PKVal.uuidPK 42)]
      (fun _ => none) =
      (some (regdLookup stateS1 "Order" (some (PKVal.uuidPK 42))
         (some (fun _ => none))).1,
       (regdLookup stateS1 "Order" (some (PKVal.uuidPK 42))
         (some (fun _ => none))).2) ∧
    managerGetPath mgrOrder (some stateS2) [] [("customer__pk", PKVal.uuidPK 5)] =
      GetPath.oneToOneHit custOrderE ∧
    managerGetPath mgrOrder (some stateS1) [] [("name", PKVal.strPK "x")] =
      GetPath.realQuery := by
  have h1 := manager_get_dispatch mgrOrder stateS1 [] [("pk__exact", PKVal.uuidPK 42)]
  have h2 := manager_get_dispatch mgrOrder stateS2 [] [("customer__pk", PKVal.uuidPK 5)]
  have h3 := manager_get_dispatch mgrOrder stateS1 [] [("name", PKVal.strPK "x")]
  have hp1 : managerGetPath mgrOrder (some stateS1) []
      [("pk__exact", PKVal.uuidPK 42)] = GetPath.registryLookup (PKVal.uuidPK 42) :=
    (h1.1 (PKVal.uuidPK 42)).2 ⟨"pk__exact", rfl, by decide, by decide⟩
  refine ⟨hp1, h1.2.2.2.2.2.2 (PKVal.uuidPK 42) hp1 (fun _ => none), ?_, ?_⟩
  · have hb := h2.2.1 "customer__pk" (PKVal.uuidPK 5) "customer" rfl
      (by decide) (by decide)
    rw [hb]
    decide
  · exact h3.2.2.1 "name" (PKVal.strPK "x") rfl (by decide) (by decide)

/-- Claim C9 (with `fetchEntities` modelled from the spec): parent-chain
registration.  After `registerParentEntities` the registry keys are still
duplicate-free (hence at most one registered instance per
(ancestor type, pk)); every ancestor row whose pk is among the pks of the
given entities (and exists in the db, with a truthy pk) is registered;
previously registered instances are retained identically (first
registration wins, so re-fetched duplicates introduce nothing); and a
second call - even with a different fetch tag producing fresh duplicate
instances - over a pk-covered entity subset leaves the registry exactly
unchanged. -/
theorem register_parents_contract (db : String → Option PKVal → Bool)
    (v₁ v₂ : Nat) (parents : List String) (s : ContextManager)
    (es es' : List Entity) (hnd : (s.pkRegistry.map Prod.fst).Nodup) :
    ((registerParentEntities db v₁ parents s es).pkRegistry.map Prod.fst).Nodup ∧
    (∀ p ∈ parents, ∀ e ∈ es, db p e.pk = true → pkTruthy e.pk = true →
      (registryGet (registerParentEntities db v₁ parents s es).pkRegistry
        (p, e.pk)).isSome = true) ∧
    (∀ (K : RegKey) (x : Entity), registryGet s.pkRegistry K = some x →
      registryGet (registerParentEntities db v₁ parents s es).pkRegistry K =
        some x) ∧
    ((∀ pk ∈ es'.map (fun e => e.pk), pk ∈ es.map (fun e => e.pk)) →
      registerParentEntities db v₂ parents
        (registerParentEntities db v₁ parents s es) es' =
        registerParentEntities db v₁ parents s es) := by
  refine ⟨registerParentEntities_preserves_nodup db v₁ parents s es hnd,
    fun p hp e he hdb htr =>
      registerParentEntities_covers db v₁ parents s es p hp e he hdb htr,
    fun K x hx =>
      registerParentEntities_preserves_get db v₁ parents s es K x hx,
    fun hsub => ?_⟩
  apply registerParentEntities_noop
  intro p hp r hr hreg
  obtain ⟨pk, hpk, hdb, rfl⟩ := (mem_fetchEntities db v₂ p _ r).1 hr
  have htr : pkTruthy pk = true := by
    simpa [isRegisterable, fetchRow] using hreg
  have hpk' : pk ∈ es.map (fun e => e.pk) := hsub pk hpk
  obtain ⟨e, he, hepk⟩ := List.mem_map.1 hpk'
  have hcov := registerParentEntities_covers db v₁ parents s es p hp e he
    (by rw [hepk]; exact hdb) (by rw [hepk]; exact htr)
  rw [hepk] at hcov
  simpa [regKey, fetchRow] using hcov

def childA : Entity := ⟨11, "Child", some (PKVal.uuidPK 1), none, []⟩

def childB : Entity := ⟨12, "Child", some (PKVal.uuidPK 2), none, []⟩

def parentsDB : String → Option PKVal → Bool := fun t pk =>
  if (t = "Base" ∨ t = "Mid") ∧
      (pk = some (PKVal.uuidPK 1) ∨ pk = some (PKVal.uuidPK 2)) then true
  else false

/-- Witness for C9 at concrete inputs: an entity type with the two-level
parent chain Base, Mid and two fetched descendants.  Both ancestor rows of
both levels end up registered, and a second call with a fresh fetch tag on
an overlapping (subset) entity list changes nothing. -/
theorem register_parents_contract_witness :
    (registryGet (registerParentEntities parentsDB 1 ["Base", "Mid"]
      initialCM [childA, childB]).pkRegistry
      ("Base", some (PKVal.uuidPK 1))).isSome = true ∧
    (registryGet (registerParentEntities parentsDB 1 ["Base", "Mid"]
      initialCM [childA, childB]).pkRegistry
      ("Mid", some (PKVal.uuidPK 2))).isSome = true ∧
    registerParentEntities parentsDB 2 ["Base", "Mid"]
      (registerParentEntities parentsDB 1 ["Base", "Mid"] initialCM
        [childA, childB]) [childA] =
      registerParentEntities parentsDB 1 ["Base", "Mid"] initialCM
        [childA, childB] := by
  have h := register_parents_contract parentsDB 1 2 ["Base", "Mid"] initialCM
    [childA, childB] [childA] (by decide)
  exact ⟨h.2.1 "Base" (by decide) childA (by decide) (by decide) (by decide),
    h.2.1 "Mid" (by decide) childB (by decide) (by decide) (by decide),
    h.2.2.2 (by decide)⟩
